import Mathlib

/-!
Verification of the statistics core of the video-game sales dashboard
(`app.py`).  The embedding models the computational parts the dashboard's
claims are about: the summary-statistics block of `show_metrics`, the
correlation-strength classification of `scatter_chart`, the trend
classification of `sales_over_time_chart`, and the per-region Tukey-rule
block of `box_plot_chart`.  Sales values are modelled as rationals; the
standard deviation (an irrational square root) is represented by the
sample variance, and statements about it use `Real.sqrt` of that field.
-/

namespace VGSales

/-- Typed failures of the statistics engine, per the spec's error taxonomy
plus the untyped `IndexError` that the Python source actually raises on an
empty series. -/
inductive StatError where
  | emptyInput
  | indexError
  | lengthMismatch
  deriving DecidableEq, Repr

/-- Ascending sort of a series; numpy and pandas sort the data before
interpolating percentiles/quantiles. -/
def sortQ (xs : List ℚ) : List ℚ := xs.insertionSort (· ≤ ·)

/-- Linear interpolation at fractional index `pos` into the sorted list `s`:
`s[i] + (pos − i) · (s[i+1] − s[i])` with `i = ⌊pos⌋`.  This is the shared
"linear" interpolation method of `numpy.percentile` and
`pandas.Series.quantile`; it is meaningful for `0 ≤ pos ≤ s.length − 1`
(at `pos = s.length − 1` the fractional part is `0`, so the out-of-range
neighbour defaults harmlessly). -/
def interpAt (s : List ℚ) (pos : ℚ) : ℚ :=
  let i := (⌊pos⌋).toNat
  let lo := s.getD i 0
  let hi := s.getD (i + 1) lo
  lo + (pos - (⌊pos⌋ : ℚ)) * (hi - lo)

/-- Mean of a possibly empty series, as `pandas.Series.mean`: an empty
series has no value (pandas returns `NaN`, modelled as `none`). -/
def listMean (l : List ℚ) : Option ℚ :=
  match l with
  | [] => none
  | _ :: _ => some (l.sum / l.length)

/-- Arithmetic mean of a series known to be non-empty (the guarded uses in
`show_metrics`). -/
def seriesMean (xs : List ℚ) : ℚ := xs.sum / xs.length

/-- Sample variance with the `n − 1` denominator, the `pandas.Series.var`
default (`ddof = 1`). -/
def sampleVar (xs : List ℚ) : ℚ :=
  (xs.map fun v => (v - seriesMean xs) ^ 2).sum / ((xs.length : ℚ) - 1)

/-- The values of `pandas.Series.mode()`: the distinct values occurring most
often, in ascending order; empty for an empty series. -/
def seriesMode (xs : List ℚ) : List ℚ :=
  let m := (xs.map fun v => xs.count v).foldr max 0
  (sortQ xs).dedup.filter fun v => xs.count v = m

/-- Read-only snapshot produced by the statistics block of `show_metrics`.
The standard deviation is `Real.sqrt var` (irrational in general), so the
snapshot carries the variance; skewness is likewise irrational and no claim
examines its value, so it is not carried. -/
structure SummaryStatistics where
  mean : ℚ
  median : ℚ
  mode : ℚ
  var : ℚ
  min : ℚ
  max : ℚ
  range : ℚ
  p25 : ℚ
  p50 : ℚ
  p75 : ℚ
  iqr : ℚ
  lowerFence : ℚ
  upperFence : ℚ
  outliers : List ℚ
  deriving DecidableEq, Repr

/-- The statistics block of `show_metrics` (app.py lines 52–73) on a
non-empty series `x :: t`: pandas mean/median/mode/var/min/max, numpy
linear-interpolation percentiles at positions `q/100 · (n−1)`, the Tukey
fences `Q1 − 1.5·IQR` and `Q3 + 1.5·IQR`, and the strict-inequality outlier
filter `sales_data[(sales_data < lower) | (sales_data > upper)]`. -/
def summaryOf (x : ℚ) (t : List ℚ) : SummaryStatistics :=
  let xs := x :: t
  let n : ℚ := xs.length
  let s := sortQ xs
  let p25 := interpAt s (25 / 100 * (n - 1))
  let p50 := interpAt s (50 / 100 * (n - 1))
  let p75 := interpAt s (75 / 100 * (n - 1))
  let iqr := p75 - p25
  let lower := p25 - 3 / 2 * iqr
  let upper := p75 + 3 / 2 * iqr
  let mn := t.foldl min x
  let mx := t.foldl max x
  { mean := seriesMean xs
    median := interpAt s (1 / 2 * (n - 1))
    mode := (seriesMode xs).headD 0
    var := sampleVar xs
    min := mn
    max := mx
    range := mx - mn
    p25 := p25
    p50 := p50
    p75 := p75
    iqr := iqr
    lowerFence := lower
    upperFence := upper
    outliers := xs.filter fun v => decide (v < lower) || decide (upper < v) }

/-- The statistics computation of `show_metrics`.  On an empty series the
first raising statement in source order is `sales_data.mode().values[0]`
(line 54), which raises an untyped `IndexError` (and `np.percentile` at
line 60 would raise as well); the spec's `EmptyInputError` guard is absent
from the source. -/
def computeSummary : List ℚ → Except StatError SummaryStatistics
  | [] => .error .indexError
  | x :: t => .ok (summaryOf x t)

/-- Qualitative correlation strength labels of `scatter_chart`. -/
inductive CorrelationStrength where
  | Strong
  | Moderate
  | Weak
  | Negligible
  deriving DecidableEq, Repr

/-- The correlation branch of `scatter_chart` (app.py lines 497–531):
`if correlation > 0.75 … elif > 0.5 … elif > 0.3 … else`, on the signed
coefficient (no absolute value is taken). -/
def classifyCorrelationStrength (r : ℚ) : CorrelationStrength :=
  if 0.75 < r then .Strong
  else if 0.5 < r then .Moderate
  else if 0.3 < r then .Weak
  else .Negligible

/-- Spread labels of the first insight of `show_metrics`. -/
inductive SpreadLabel where
  | Wide
  | Consistent
  deriving DecidableEq, Repr

/-- The spread insight of `show_metrics` (app.py lines 105–108):
`if std_sales > 1` then the wide-spread text, else the consistent text. -/
def classifySpread (std : ℚ) : SpreadLabel :=
  if 1 < std then .Wide else .Consistent

/-- Mean-centred copy of a series (shared step of Pearson's formula). -/
def centered (xs : List ℚ) : List ℚ := xs.map fun v => v - seriesMean xs

/-- Modelled from the spec: `scipy.stats.pearsonr`, which `scatter_chart`
(app.py line 491) calls but whose body is not part of the repository,
rejects two series of unequal length (the spec's `LengthMismatchError`)
and never truncates them; otherwise it returns Pearson's
`r = num / √(dxx · dyy)`.  To stay inside ℚ the result carries the
numerator `num = Σ (x−x̄)(y−ȳ)` and the product
`dxx · dyy = (Σ (x−x̄)²) · (Σ (y−ȳ)²)`, which determine `r`. -/
def computeCorrelation (xs ys : List ℚ) : Except StatError (ℚ × ℚ) :=
  if xs.length = ys.length then
    .ok ((List.zipWith (· * ·) (centered xs) (centered ys)).sum,
      ((centered xs).map fun v => v ^ 2).sum * ((centered ys).map fun v => v ^ 2).sum)
  else .error .lengthMismatch

/-- Trend labels of `sales_over_time_chart`. -/
inductive TrendLabel where
  | Increasing
  | Decreasing
  | Stable
  deriving DecidableEq, Repr

/-- Consecutive differences, `pandas.Series.diff()` with the leading `NaN`
dropped (as `.mean()` skips it): element `i` is `xs[i+1] − xs[i]`. -/
def diffsOf (xs : List ℚ) : List ℚ := List.zipWith (· - ·) xs.tail xs

/-- Mean first-difference `filtered[col].diff().mean()` of
`sales_over_time_chart` (app.py line 202): no value (`NaN`) when the series
has fewer than two rows. -/
def meanDiff (xs : List ℚ) : Option ℚ := listMean (diffsOf xs)

/-- The sales trend of `sales_over_time_chart`: rows are `(Year, value)`
pairs after `dropna()`, kept in the dataset's row order — the source never
sorts them by year before differencing. -/
def salesTrend (rows : List (ℚ × ℚ)) : Option ℚ :=
  meanDiff (rows.map Prod.snd)

/-- The mean first-difference of the values in ascending year order, as the
spec's words describe `computeTrend`; stated for comparison with
`salesTrend`, which uses the dataset's row order. -/
def yearSortedTrend (rows : List (ℚ × ℚ)) : Option ℚ :=
  meanDiff ((rows.insertionSort fun a b => a.1 ≤ b.1).map Prod.snd)

/-- The trend branch of `sales_over_time_chart` (app.py lines 205–225):
`if sales_trend > 0 … elif < 0 … else`; a `NaN` trend (no value, i.e. fewer
than two rows) fails both comparisons and falls into the stable branch. -/
def classifyTrend : Option ℚ → TrendLabel
  | some v => if 0 < v then .Increasing else if v < 0 then .Decreasing else .Stable
  | none => .Stable

/-- Interquartile range of the per-region insight loop of `box_plot_chart`
(app.py line 414): `quantile(0.75) − quantile(0.25)` via pandas, i.e.
linear interpolation at positions `p · (n−1)`. -/
def boxIqr (x : ℚ) (t : List ℚ) : ℚ :=
  interpAt (sortQ (x :: t)) (3 / 4 * (((x :: t).length : ℚ) - 1)) -
    interpAt (sortQ (x :: t)) (1 / 4 * (((x :: t).length : ℚ) - 1))

/-- Lower Tukey fence of the box-plot loop (app.py line 417):
`quantile(0.25) − 1.5 · IQR`. -/
def boxLowerFence (x : ℚ) (t : List ℚ) : ℚ :=
  interpAt (sortQ (x :: t)) (1 / 4 * (((x :: t).length : ℚ) - 1)) - 3 / 2 * boxIqr x t

/-- Upper Tukey fence of the box-plot loop (app.py line 418):
`quantile(0.75) + 1.5 · IQR`. -/
def boxUpperFence (x : ℚ) (t : List ℚ) : ℚ :=
  interpAt (sortQ (x :: t)) (3 / 4 * (((x :: t).length : ℚ) - 1)) + 3 / 2 * boxIqr x t

/-- Outlier count of the box-plot loop (app.py lines 417–418): the number
of values strictly outside the Tukey fences. -/
def boxOutlierCount (x : ℚ) (t : List ℚ) : ℕ :=
  ((x :: t).filter fun v =>
    decide (v < boxLowerFence x t) || decide (boxUpperFence x t < v)).length

/-- The spread branch of the box-plot loop (app.py lines 439–448): the
wide-spread text is shown iff `iqr_sales > 1`; the threshold is applied to
the interquartile range, unlike `show_metrics`, which applies it to the
standard deviation. -/
def boxSpreadWide (x : ℚ) (t : List ℚ) : Bool :=
  decide (1 < boxIqr x t)

/-- Helper: elements of a sorted list are monotone in the index, stated for
`getD` with arbitrary defaults at in-range indices. -/
theorem sorted_getD_le (s : List ℚ) (hs : s.Sorted (· ≤ ·)) {i j : ℕ} (d e : ℚ)
    (hij : i ≤ j) (hj : j < s.length) : s.getD i d ≤ s.getD j e := by
  have hi : i < s.length := lt_of_le_of_lt hij hj
  rw [List.getD_eq_getElem s d hi, List.getD_eq_getElem s e hj]
  have h := hs.rel_get_of_le (Fin.mk_le_mk.mpr hij : (⟨i, hi⟩ : Fin s.length) ≤ ⟨j, hj⟩)
  simpa [List.get_eq_getElem] using h

/-- Helper: `getD` at an in-range index is an element of the list. -/
theorem getD_mem (s : List ℚ) {i : ℕ} (hi : i < s.length) (d : ℚ) : s.getD i d ∈ s := by
  rw [List.getD_eq_getElem s d hi]
  exact List.getElem_mem hi

/-- Helper: in a sorted list the interpolation cell is weakly increasing
(the out-of-range successor defaults to the lower endpoint). -/
theorem getD_succ_ge (s : List ℚ) (hs : s.Sorted (· ≤ ·)) {i : ℕ} (_hi : i < s.length) :
    s.getD i 0 ≤ s.getD (i + 1) (s.getD i 0) := by
  rcases lt_or_le (i + 1) s.length with h | h
  · exact sorted_getD_le s hs 0 (s.getD i 0) (Nat.le_succ i) h
  · rw [List.getD_eq_default s (s.getD i 0) h]

/-- Helper: a position in `[0, n−1]` floors to an in-range index. -/
theorem floor_toNat_lt {pos : ℚ} {n : ℕ} (h0 : 0 ≤ pos) (hub : pos ≤ (n : ℚ) - 1) :
    (⌊pos⌋).toNat < n := by
  have hn : (1 : ℚ) ≤ (n : ℚ) := by linarith
  have hn1 : 1 ≤ n := by exact_mod_cast hn
  have h2 : ⌊pos⌋ ≤ (n : ℤ) - 1 := by
    have h3 : pos ≤ (((n : ℤ) - 1 : ℤ) : ℚ) := by push_cast; linarith
    calc ⌊pos⌋ ≤ ⌊(((n : ℤ) - 1 : ℤ) : ℚ)⌋ := Int.floor_mono h3
      _ = (n : ℤ) - 1 := Int.floor_intCast _
  omega

/-- Helper: the interpolated value is at least the lower cell endpoint. -/
theorem interpAt_ge_lo (s : List ℚ) (hs : s.Sorted (· ≤ ·)) {pos : ℚ} (h0 : 0 ≤ pos)
    (hub : pos ≤ (s.length : ℚ) - 1) :
    s.getD (⌊pos⌋).toNat 0 ≤ interpAt s pos := by
  have hi : (⌊pos⌋).toNat < s.length := floor_toNat_lt h0 hub
  have hf0 : 0 ≤ pos - (⌊pos⌋ : ℚ) := by linarith [Int.floor_le pos]
  have hlohi := getD_succ_ge s hs hi
  have hmul : 0 ≤ (pos - (⌊pos⌋ : ℚ)) *
      (s.getD ((⌊pos⌋).toNat + 1) (s.getD (⌊pos⌋).toNat 0) - s.getD (⌊pos⌋).toNat 0) :=
    mul_nonneg hf0 (sub_nonneg.mpr hlohi)
  have hrw : interpAt s pos = s.getD (⌊pos⌋).toNat 0 + (pos - (⌊pos⌋ : ℚ)) *
      (s.getD ((⌊pos⌋).toNat + 1) (s.getD (⌊pos⌋).toNat 0) - s.getD (⌊pos⌋).toNat 0) := rfl
  linarith [hrw.ge, hrw.le]

/-- Helper: the interpolated value is at most the upper cell endpoint. -/
theorem interpAt_le_hi (s : List ℚ) (hs : s.Sorted (· ≤ ·)) {pos : ℚ} (h0 : 0 ≤ pos)
    (hub : pos ≤ (s.length : ℚ) - 1) :
    interpAt s pos ≤ s.getD ((⌊pos⌋).toNat + 1) (s.getD (⌊pos⌋).toNat 0) := by
  have hi : (⌊pos⌋).toNat < s.length := floor_toNat_lt h0 hub
  have hf1 : pos - (⌊pos⌋ : ℚ) ≤ 1 := by linarith [Int.lt_floor_add_one pos]
  have hlohi := getD_succ_ge s hs hi
  have hmul : (pos - (⌊pos⌋ : ℚ)) *
      (s.getD ((⌊pos⌋).toNat + 1) (s.getD (⌊pos⌋).toNat 0) - s.getD (⌊pos⌋).toNat 0) ≤
      s.getD ((⌊pos⌋).toNat + 1) (s.getD (⌊pos⌋).toNat 0) - s.getD (⌊pos⌋).toNat 0 :=
    mul_le_of_le_one_left (sub_nonneg.mpr hlohi) hf1
  have hrw : interpAt s pos = s.getD (⌊pos⌋).toNat 0 + (pos - (⌊pos⌋ : ℚ)) *
      (s.getD ((⌊pos⌋).toNat + 1) (s.getD (⌊pos⌋).toNat 0) - s.getD (⌊pos⌋).toNat 0) := rfl
  linarith [hrw.ge, hrw.le]

/-- Helper: the interpolated value at a valid position is bracketed by two
elements of the sorted list. -/
theorem interpAt_between (s : List ℚ) (hs : s.Sorted (· ≤ ·)) {pos : ℚ} (h0 : 0 ≤ pos)
    (hub : pos ≤ (s.length : ℚ) - 1) :
    ∃ a ∈ s, ∃ b ∈ s, a ≤ interpAt s pos ∧ interpAt s pos ≤ b := by
  have hi : (⌊pos⌋).toNat < s.length := floor_toNat_lt h0 hub
  refine ⟨s.getD (⌊pos⌋).toNat 0, getD_mem s hi 0, ?_⟩
  rcases lt_or_le ((⌊pos⌋).toNat + 1) s.length with h | h
  · exact ⟨s.getD ((⌊pos⌋).toNat + 1) (s.getD (⌊pos⌋).toNat 0),
      getD_mem s h _, interpAt_ge_lo s hs h0 hub, interpAt_le_hi s hs h0 hub⟩
  · refine ⟨s.getD (⌊pos⌋).toNat 0, getD_mem s hi 0,
      interpAt_ge_lo s hs h0 hub, ?_⟩
    have := interpAt_le_hi s hs h0 hub
    rwa [List.getD_eq_default s (s.getD (⌊pos⌋).toNat 0) h] at this

/-- Helper: the linear interpolation is monotone in the position over the
valid range `[0, n−1]`. -/
theorem interpAt_mono (s : List ℚ) (hs : s.Sorted (· ≤ ·)) {pos pos' : ℚ}
    (h0 : 0 ≤ pos) (hle : pos ≤ pos') (hub : pos' ≤ (s.length : ℚ) - 1) :
    interpAt s pos ≤ interpAt s pos' := by
  have h0' : 0 ≤ pos' := le_trans h0 hle
  have hub0 : pos ≤ (s.length : ℚ) - 1 := le_trans hle hub
  have hi : (⌊pos⌋).toNat < s.length := floor_toNat_lt h0 hub0
  have hi' : (⌊pos'⌋).toNat < s.length := floor_toNat_lt h0' hub
  rcases Nat.lt_or_ge (⌊pos⌋).toNat (⌊pos'⌋).toNat with hlt | hge
  · calc interpAt s pos
        ≤ s.getD ((⌊pos⌋).toNat + 1) (s.getD (⌊pos⌋).toNat 0) := interpAt_le_hi s hs h0 hub0
      _ ≤ s.getD (⌊pos'⌋).toNat 0 :=
          sorted_getD_le s hs _ 0 (Nat.succ_le_of_lt hlt) hi'
      _ ≤ interpAt s pos' := interpAt_ge_lo s hs h0' hub
  · have hmono : (⌊pos⌋).toNat ≤ (⌊pos'⌋).toNat := Int.toNat_le_toNat (Int.floor_mono hle)
    have heq : (⌊pos'⌋).toNat = (⌊pos⌋).toNat := le_antisymm hge hmono
    have hfl : ⌊pos'⌋ = ⌊pos⌋ := by
      have hp : 0 ≤ ⌊pos⌋ := Int.floor_nonneg.mpr h0
      have hp' : 0 ≤ ⌊pos'⌋ := Int.floor_nonneg.mpr h0'
      omega
    have hlohi := getD_succ_ge s hs hi
    have hrw : interpAt s pos = s.getD (⌊pos⌋).toNat 0 + (pos - (⌊pos⌋ : ℚ)) *
        (s.getD ((⌊pos⌋).toNat + 1) (s.getD (⌊pos⌋).toNat 0) - s.getD (⌊pos⌋).toNat 0) := rfl
    have hrw' : interpAt s pos' = s.getD (⌊pos'⌋).toNat 0 + (pos' - (⌊pos'⌋ : ℚ)) *
        (s.getD ((⌊pos'⌋).toNat + 1) (s.getD (⌊pos'⌋).toNat 0) - s.getD (⌊pos'⌋).toNat 0) := rfl
    rw [hrw, hrw', heq, hfl]
    have hd : 0 ≤ (pos' - pos) *
        (s.getD ((⌊pos⌋).toNat + 1) (s.getD (⌊pos⌋).toNat 0) - s.getD (⌊pos⌋).toNat 0) :=
      mul_nonneg (by linarith) (sub_nonneg.mpr hlohi)
    nlinarith [hd]

/-- Helper: a left fold by `min` is at most its initial value. -/
theorem foldl_min_le_init (t : List ℚ) : ∀ x : ℚ, t.foldl min x ≤ x := by
  induction t with
  | nil => intro x; exact le_rfl
  | cons a u ih => intro x; exact le_trans (ih (min x a)) (min_le_left x a)

/-- Helper: a left fold by `min` is at most every folded element. -/
theorem foldl_min_le_mem (t : List ℚ) : ∀ (x v : ℚ), v ∈ t → t.foldl min x ≤ v := by
  induction t with
  | nil => intro x v hv; cases hv
  | cons a u ih =>
    intro x v hv
    rcases List.mem_cons.mp hv with rfl | h
    · exact le_trans (foldl_min_le_init u (min x v)) (min_le_right x v)
    · exact ih (min x a) v h

/-- Helper: `pandas min` of `x :: t` is a lower bound of the series. -/
theorem foldl_min_le (x : ℚ) (t : List ℚ) : ∀ v ∈ x :: t, t.foldl min x ≤ v := by
  intro v hv
  rcases List.mem_cons.mp hv with rfl | h
  · exact foldl_min_le_init t v
  · exact foldl_min_le_mem t x v h

/-- Helper: a left fold by `max` is at least its initial value. -/
theorem foldl_max_ge_init (t : List ℚ) : ∀ x : ℚ, x ≤ t.foldl max x := by
  induction t with
  | nil => intro x; exact le_rfl
  | cons a u ih => intro x; exact le_trans (le_max_left x a) (ih (max x a))

/-- Helper: a left fold by `max` is at least every folded element. -/
theorem foldl_max_ge_mem (t : List ℚ) : ∀ (x v : ℚ), v ∈ t → v ≤ t.foldl max x := by
  induction t with
  | nil => intro x v hv; cases hv
  | cons a u ih =>
    intro x v hv
    rcases List.mem_cons.mp hv with rfl | h
    · exact le_trans (le_max_right x v) (foldl_max_ge_init u (max x v))
    · exact ih (max x a) v h

/-- Helper: `pandas max` of `x :: t` is an upper bound of the series. -/
theorem foldl_max_ge (x : ℚ) (t : List ℚ) : ∀ v ∈ x :: t, v ≤ t.foldl max x := by
  intro v hv
  rcases List.mem_cons.mp hv with rfl | h
  · exact foldl_max_ge_init t v
  · exact foldl_max_ge_mem t x v h

/-- Helper: every consecutive difference of a constant series is zero. -/
theorem diffsOf_const (c : ℚ) :
    ∀ xs : List ℚ, (∀ v ∈ xs, v = c) → ∀ d ∈ diffsOf xs, d = 0 := by
  intro xs
  induction xs with
  | nil => simp [diffsOf]
  | cons x t ih =>
    cases t with
    | nil => simp [diffsOf]
    | cons y u =>
      intro hall d hd
      have hstep : diffsOf (x :: y :: u) = (y - x) :: diffsOf (y :: u) := rfl
      rw [hstep] at hd
      rcases List.mem_cons.mp hd with h | h
      · have hx : x = c := hall x (by simp)
        have hy : y = c := hall y (by simp)
        rw [h, hx, hy, sub_self]
      · exact ih (fun v hv => hall v (List.mem_cons_of_mem _ hv)) d h

/-- C1: the claim says `computeSummary` fails with `EmptyInputError` on an
empty series; the source instead crashes with an untyped `IndexError` at
`sales_data.mode().values[0]` (app.py line 54), so the typed guard the spec
requires is absent.  This theorem evaluates the code at the failing input. -/
theorem computeSummary_empty_raises_IndexError :
    computeSummary ([] : List ℚ) = .error .indexError ∧
    computeSummary ([] : List ℚ) ≠ .error .emptyInput := by
  refine ⟨rfl, ?_⟩
  simp [computeSummary]

/-- C2: the correlation strength classification is Strong iff `r > 0.75`,
Moderate iff `0.5 < r ≤ 0.75`, Weak iff `0.3 < r ≤ 0.5`, Negligible iff
`r ≤ 0.3`; it uses the signed `r` (not `|r|`), so `0.8 ↦ Strong`,
`0.6 ↦ Moderate`, `0.35 ↦ Weak`, `0.1 ↦ Negligible`, `−0.9 ↦ Negligible`. -/
theorem classifyCorrelationStrength_spec :
    (∀ r : ℚ,
      (classifyCorrelationStrength r = .Strong ↔ 0.75 < r) ∧
      (classifyCorrelationStrength r = .Moderate ↔ 0.5 < r ∧ r ≤ 0.75) ∧
      (classifyCorrelationStrength r = .Weak ↔ 0.3 < r ∧ r ≤ 0.5) ∧
      (classifyCorrelationStrength r = .Negligible ↔ r ≤ 0.3)) ∧
    classifyCorrelationStrength 0.8 = .Strong ∧
    classifyCorrelationStrength 0.6 = .Moderate ∧
    classifyCorrelationStrength 0.35 = .Weak ∧
    classifyCorrelationStrength 0.1 = .Negligible ∧
    classifyCorrelationStrength (-0.9) = .Negligible := by
  refine ⟨?_, ?_, ?_, ?_, ?_, ?_⟩
  · intro r
    unfold classifyCorrelationStrength
    split_ifs with h1 h2 h3 <;> refine ⟨?_, ?_, ?_, ?_⟩ <;> simp_all <;>
      first
        | linarith
        | (intro h; linarith)
        | (constructor <;> linarith)
  all_goals norm_num [classifyCorrelationStrength]

/-- C6: `classifySpread` is a pure threshold function of the standard
deviation: Wide iff `std > 1.0` and Consistent otherwise; in particular
`std = 1.0` yields Consistent and `std = 1.0001` yields Wide. -/
theorem classifySpread_spec :
    (∀ s : ℚ, (classifySpread s = .Wide ↔ 1 < s) ∧ (classifySpread s = .Consistent ↔ s ≤ 1)) ∧
    classifySpread 1 = .Consistent ∧
    classifySpread 1.0001 = .Wide := by
  refine ⟨?_, ?_, ?_⟩
  · intro s
    unfold classifySpread
    split_ifs with h <;> refine ⟨?_, ?_⟩ <;> simp_all <;> linarith
  all_goals norm_num [classifySpread]

/-- C8: two series of unequal length are rejected by the correlation
computation with a length-mismatch failure; they are never truncated. -/
theorem computeCorrelation_length_mismatch :
    ∀ xs ys : List ℚ, xs.length ≠ ys.length →
      computeCorrelation xs ys = .error .lengthMismatch := by
  intro xs ys h
  simp [computeCorrelation, h]

/-- Witness for C8 at series of lengths 2 and 1. -/
theorem computeCorrelation_length_mismatch_witness :
    computeCorrelation [1, 2] [1] = .error .lengthMismatch :=
  computeCorrelation_length_mismatch [1, 2] [1] (by decide)

/-- C5: on `[1,2,3,4,5]` the summary yields mean 3, median 3, `P25 = 2`,
`P75 = 4`, `IQR = 2`, sample variance `5/2` (so the sample standard
deviation `√(5/2)` is `1.5811` to four decimal places), and no outliers —
pinning the sample (`n−1`) variance semantics and the linear-interpolation
percentile method. -/
theorem computeSummary_round_trip :
    computeSummary [1, 2, 3, 4, 5] = .ok (summaryOf 1 [2, 3, 4, 5]) ∧
    (summaryOf 1 [2, 3, 4, 5]).mean = 3 ∧
    (summaryOf 1 [2, 3, 4, 5]).median = 3 ∧
    (summaryOf 1 [2, 3, 4, 5]).p25 = 2 ∧
    (summaryOf 1 [2, 3, 4, 5]).p75 = 4 ∧
    (summaryOf 1 [2, 3, 4, 5]).iqr = 2 ∧
    (summaryOf 1 [2, 3, 4, 5]).var = 5 / 2 ∧
    (summaryOf 1 [2, 3, 4, 5]).outliers = [] ∧
    |Real.sqrt ((summaryOf 1 [2, 3, 4, 5]).var : ℝ) - 1.5811| < 0.0001 := by
  have hvar : (summaryOf 1 [2, 3, 4, 5]).var = 5 / 2 := by
    norm_num [summaryOf, sampleVar, seriesMean]
  refine ⟨rfl, ?_, ?_, ?_, ?_, ?_, hvar, ?_, ?_⟩
  · norm_num [summaryOf, seriesMean]
  · norm_num [summaryOf, sortQ, interpAt, List.insertionSort, List.orderedInsert] <;>
      simp <;> norm_num
  · norm_num [summaryOf, sortQ, interpAt, List.insertionSort, List.orderedInsert] <;>
      simp <;> norm_num
  · norm_num [summaryOf, sortQ, interpAt, List.insertionSort, List.orderedInsert] <;>
      simp <;> norm_num
  · norm_num [summaryOf, sortQ, interpAt, List.insertionSort, List.orderedInsert] <;>
      simp <;> norm_num
  · norm_num [summaryOf, sortQ, interpAt, List.insertionSort, List.orderedInsert,
      List.filter_cons, decide_eq_true_eq] <;> simp <;> norm_num
  · rw [hvar]
    have hc : (((5 : ℚ) / 2 : ℚ) : ℝ) = 5 / 2 := by norm_num
    rw [hc]
    have h1 : (1.5811 : ℝ) < Real.sqrt (5 / 2) :=
      (Real.lt_sqrt (by norm_num)).mpr (by norm_num)
    have h2 : Real.sqrt (5 / 2) < 1.5812 :=
      (Real.sqrt_lt' (by norm_num)).mpr (by norm_num)
    rw [abs_sub_lt_iff]
    constructor <;> linarith

/-- C7 counterexample: the trend of `sales_over_time_chart` is computed on
the values in dataset row order, not in ascending year order.  On the rows
`[(2010, 5), (2000, 1), (2005, 2)]` the code's mean first-difference is
`−3/2` (label Decreasing), while the mean first-difference in ascending
year order is `2` (label Increasing). -/
theorem salesTrend_not_year_sorted :
    salesTrend [(2010, 5), (2000, 1), (2005, 2)] = some (-(3 / 2)) ∧
    yearSortedTrend [(2010, 5), (2000, 1), (2005, 2)] = some 2 ∧
    salesTrend [(2010, 5), (2000, 1), (2005, 2)] ≠
      yearSortedTrend [(2010, 5), (2000, 1), (2005, 2)] ∧
    classifyTrend (salesTrend [(2010, 5), (2000, 1), (2005, 2)]) = .Decreasing ∧
    classifyTrend (yearSortedTrend [(2010, 5), (2000, 1), (2005, 2)]) = .Increasing := by
  have hs : salesTrend [(2010, 5), (2000, 1), (2005, 2)] = some (-(3 / 2)) := by
    norm_num [salesTrend, meanDiff, diffsOf, listMean]
  have hy : yearSortedTrend [(2010, 5), (2000, 1), (2005, 2)] = some 2 := by
    norm_num [yearSortedTrend, meanDiff, diffsOf, listMean, List.insertionSort,
      List.orderedInsert]
  refine ⟨hs, hy, ?_, ?_, ?_⟩
  · rw [hs, hy]; norm_num
  · rw [hs]; norm_num [classifyTrend]
  · rw [hy]; norm_num [classifyTrend]

/-- C7 (amended): the trend is the mean first-difference of the value
sequence in dataset row order (nulls dropped, no sorting by year);
`classifyTrend` labels it Increasing iff it is positive, Decreasing iff
negative, and Stable iff zero, and every constant-value series is
classified Stable. -/
theorem classifyTrend_spec :
    (∀ v : ℚ,
      (classifyTrend (some v) = .Increasing ↔ 0 < v) ∧
      (classifyTrend (some v) = .Decreasing ↔ v < 0) ∧
      (classifyTrend (some v) = .Stable ↔ v = 0)) ∧
    (∀ (rows : List (ℚ × ℚ)) (c : ℚ), (∀ p ∈ rows, p.2 = c) →
      classifyTrend (salesTrend rows) = .Stable) := by
  constructor
  · intro v
    simp only [classifyTrend]
    split_ifs with h1 h2 <;> refine ⟨?_, ?_, ?_⟩ <;> simp_all <;>
      first
        | linarith
        | (intro h; linarith)
  · intro rows c hconst
    have hall : ∀ v ∈ rows.map Prod.snd, v = c := by
      intro v hv
      rcases List.mem_map.mp hv with ⟨p, hp, rfl⟩
      exact hconst p hp
    have hzero := diffsOf_const c (rows.map Prod.snd) hall
    unfold salesTrend meanDiff
    cases hd : diffsOf (rows.map Prod.snd) with
    | nil => simp [listMean, classifyTrend]
    | cons d ds =>
      have hsum : (d :: ds).sum = 0 := by
        apply List.sum_eq_zero
        intro v hv
        exact hzero v (hd ▸ hv)
      simp [listMean, hsum, classifyTrend]

/-- Witness for the C7 theorem at the constant series `[(2000,3), (2001,3)]`. -/
theorem classifyTrend_spec_witness :
    classifyTrend (salesTrend [(2000, 3), (2001, 3)]) = .Stable :=
  classifyTrend_spec.2 [(2000, 3), (2001, 3)] 3 (by decide)

/-- C10: the box-plot comparison path classifies the spread as wide iff
`IQR > 1.0` (and narrow otherwise); the threshold is applied to the
interquartile range, not to the standard deviation used by `show_metrics`,
and the two paths disagree on `[0, 0, 0, 0, 100]`: its IQR is `0` (narrow)
while its sample standard deviation is `√2000 > 1` (wide). -/
theorem boxSpread_uses_iqr_threshold :
    (∀ (x : ℚ) (t : List ℚ),
      (boxSpreadWide x t = true ↔ 1 < boxIqr x t) ∧
      (boxSpreadWide x t = false ↔ boxIqr x t ≤ 1)) ∧
    boxIqr 0 [0, 0, 0, 100] = 0 ∧
    boxSpreadWide 0 [0, 0, 0, 100] = false ∧
    (summaryOf 0 [0, 0, 0, 100]).var = 2000 ∧
    (1 : ℝ) < Real.sqrt ((summaryOf 0 [0, 0, 0, 100]).var : ℝ) := by
  have hiqr : boxIqr 0 [0, 0, 0, 100] = 0 := by
    norm_num [boxIqr, sortQ, interpAt, List.insertionSort, List.orderedInsert] <;>
      simp <;> norm_num
  have hvar : (summaryOf 0 [0, 0, 0, 100]).var = 2000 := by
    norm_num [summaryOf, sampleVar, seriesMean]
  refine ⟨?_, hiqr, ?_, hvar, ?_⟩
  · intro x t
    constructor
    · simp [boxSpreadWide]
    · simp [boxSpreadWide]
  · simp [boxSpreadWide, hiqr]
  · rw [hvar]
    have hc : (((2000 : ℚ)) : ℝ) = 2000 := by norm_num
    rw [hc]
    exact (Real.lt_sqrt (by norm_num)).mpr (by norm_num)

/-- C3: for every non-empty series the summary satisfies
`IQR = P75 − P25 ≥ 0`, the fences are `P25 − 1.5·IQR` and `P75 + 1.5·IQR`,
and the outlier list holds exactly the values of the series strictly
outside the fences (values equal to a fence are not outliers). -/
theorem summary_outlier_rule :
    ∀ (x : ℚ) (t : List ℚ),
      (summaryOf x t).iqr = (summaryOf x t).p75 - (summaryOf x t).p25 ∧
      0 ≤ (summaryOf x t).iqr ∧
      (summaryOf x t).lowerFence = (summaryOf x t).p25 - 3 / 2 * (summaryOf x t).iqr ∧
      (summaryOf x t).upperFence = (summaryOf x t).p75 + 3 / 2 * (summaryOf x t).iqr ∧
      ∀ v : ℚ, v ∈ (summaryOf x t).outliers ↔
        v ∈ x :: t ∧ (v < (summaryOf x t).lowerFence ∨ (summaryOf x t).upperFence < v) := by
  intro x t
  have hsort : (sortQ (x :: t)).Sorted (· ≤ ·) := List.sorted_insertionSort _ _
  have hlen : (sortQ (x :: t)).length = (x :: t).length :=
    (List.perm_insertionSort _ _).length_eq
  have hn1 : (1 : ℚ) ≤ (((x :: t).length : ℕ) : ℚ) := by
    have : 1 ≤ (x :: t).length := Nat.succ_le_of_lt (List.length_pos.mpr (by simp))
    exact_mod_cast this
  have hiqr : 0 ≤ (summaryOf x t).iqr := by
    have hm : interpAt (sortQ (x :: t)) (25 / 100 * ((((x :: t).length : ℕ) : ℚ) - 1)) ≤
        interpAt (sortQ (x :: t)) (75 / 100 * ((((x :: t).length : ℕ) : ℚ) - 1)) := by
      apply interpAt_mono (sortQ (x :: t)) hsort
      · nlinarith
      · nlinarith
      · rw [hlen]; nlinarith
    have hrw : (summaryOf x t).iqr =
        interpAt (sortQ (x :: t)) (75 / 100 * ((((x :: t).length : ℕ) : ℚ) - 1)) -
          interpAt (sortQ (x :: t)) (25 / 100 * ((((x :: t).length : ℕ) : ℚ) - 1)) := rfl
    rw [hrw]
    linarith
  refine ⟨rfl, hiqr, rfl, rfl, ?_⟩
  intro v
  have ho : (summaryOf x t).outliers = (x :: t).filter
      (fun w => decide (w < (summaryOf x t).lowerFence) ||
        decide ((summaryOf x t).upperFence < w)) := rfl
  rw [ho]
  simp [List.mem_filter]

/-- C4: for every non-empty series (in particular one of non-negative
values) the summary satisfies `min ≤ P25 ≤ median ≤ P75 ≤ max` and
`range = max − min ≥ 0`. -/
theorem summary_order_statistics :
    ∀ (x : ℚ) (t : List ℚ),
      (summaryOf x t).min ≤ (summaryOf x t).p25 ∧
      (summaryOf x t).p25 ≤ (summaryOf x t).median ∧
      (summaryOf x t).median ≤ (summaryOf x t).p75 ∧
      (summaryOf x t).p75 ≤ (summaryOf x t).max ∧
      (summaryOf x t).range = (summaryOf x t).max - (summaryOf x t).min ∧
      0 ≤ (summaryOf x t).range := by
  intro x t
  have hperm : List.Perm (sortQ (x :: t)) (x :: t) := List.perm_insertionSort _ _
  have hsort : (sortQ (x :: t)).Sorted (· ≤ ·) := List.sorted_insertionSort _ _
  have hlen : (sortQ (x :: t)).length = (x :: t).length := hperm.length_eq
  have hn1 : (1 : ℚ) ≤ (((x :: t).length : ℕ) : ℚ) := by
    have : 1 ≤ (x :: t).length := Nat.succ_le_of_lt (List.length_pos.mpr (by simp))
    exact_mod_cast this
  have hp25 : (summaryOf x t).p25 =
      interpAt (sortQ (x :: t)) (25 / 100 * ((((x :: t).length : ℕ) : ℚ) - 1)) := rfl
  have hmed : (summaryOf x t).median =
      interpAt (sortQ (x :: t)) (1 / 2 * ((((x :: t).length : ℕ) : ℚ) - 1)) := rfl
  have hp75 : (summaryOf x t).p75 =
      interpAt (sortQ (x :: t)) (75 / 100 * ((((x :: t).length : ℕ) : ℚ) - 1)) := rfl
  have hmin : (summaryOf x t).min = t.foldl min x := rfl
  have hmax : (summaryOf x t).max = t.foldl max x := rfl
  have h25pos : 0 ≤ 25 / 100 * ((((x :: t).length : ℕ) : ℚ) - 1) := by nlinarith
  have h25ub : 25 / 100 * ((((x :: t).length : ℕ) : ℚ) - 1) ≤
      ((sortQ (x :: t)).length : ℚ) - 1 := by rw [hlen]; nlinarith
  have h75pos : 0 ≤ 75 / 100 * ((((x :: t).length : ℕ) : ℚ) - 1) := by nlinarith
  have h75ub : 75 / 100 * ((((x :: t).length : ℕ) : ℚ) - 1) ≤
      ((sortQ (x :: t)).length : ℚ) - 1 := by rw [hlen]; nlinarith
  refine ⟨?_, ?_, ?_, ?_, rfl, ?_⟩
  · rcases interpAt_between (sortQ (x :: t)) hsort h25pos h25ub with ⟨a, ha, _, _, hai, _⟩
    have hax : a ∈ x :: t := hperm.mem_iff.mp ha
    rw [hmin, hp25]
    exact le_trans (foldl_min_le x t a hax) hai
  · rw [hp25, hmed]
    apply interpAt_mono (sortQ (x :: t)) hsort h25pos ?_ ?_
    · nlinarith
    · rw [hlen]; nlinarith
  · rw [hmed, hp75]
    apply interpAt_mono (sortQ (x :: t)) hsort ?_ ?_ h75ub
    · nlinarith
    · nlinarith
  · rcases interpAt_between (sortQ (x :: t)) hsort h75pos h75ub with ⟨_, _, b, hb, _, hib⟩
    have hbx : b ∈ x :: t := hperm.mem_iff.mp hb
    rw [hmax, hp75]
    exact le_trans hib (foldl_max_ge x t b hbx)
  · have h1 : t.foldl min x ≤ x := foldl_min_le x t x (by simp)
    have h2 : x ≤ t.foldl max x := foldl_max_ge x t x (by simp)
    have hrw : (summaryOf x t).range = t.foldl max x - t.foldl min x := rfl
    rw [hrw]
    linarith

/-- C9: the Tukey-rule quantities computed by `show_metrics` (via
`np.percentile` positions `q/100 · (n−1)`) and by the box-plot comparison
loop (via `pandas.quantile` positions `p · (n−1)`) are numerically
identical on every series: same IQR, same fences, same outlier count. -/
theorem tukey_call_sites_agree :
    ∀ (x : ℚ) (t : List ℚ),
      (summaryOf x t).iqr = boxIqr x t ∧
      (summaryOf x t).lowerFence = boxLowerFence x t ∧
      (summaryOf x t).upperFence = boxUpperFence x t ∧
      (summaryOf x t).outliers.length = boxOutlierCount x t := by
  intro x t
  have h25 : (25 : ℚ) / 100 * ((((x :: t).length : ℕ) : ℚ) - 1) =
      1 / 4 * ((((x :: t).length : ℕ) : ℚ) - 1) := by ring
  have h75 : (75 : ℚ) / 100 * ((((x :: t).length : ℕ) : ℚ) - 1) =
      3 / 4 * ((((x :: t).length : ℕ) : ℚ) - 1) := by ring
  have hiqr : (summaryOf x t).iqr = boxIqr x t := by
    have e1 : (summaryOf x t).iqr =
        interpAt (sortQ (x :: t)) (75 / 100 * ((((x :: t).length : ℕ) : ℚ) - 1)) -
          interpAt (sortQ (x :: t)) (25 / 100 * ((((x :: t).length : ℕ) : ℚ) - 1)) := rfl
    rw [e1, h25, h75]
    rfl
  have hlow : (summaryOf x t).lowerFence = boxLowerFence x t := by
    have e2 : (summaryOf x t).lowerFence =
        interpAt (sortQ (x :: t)) (25 / 100 * ((((x :: t).length : ℕ) : ℚ) - 1)) -
          3 / 2 * (summaryOf x t).iqr := rfl
    rw [e2, h25, hiqr]
    rfl
  have hup : (summaryOf x t).upperFence = boxUpperFence x t := by
    have e3 : (summaryOf x t).upperFence =
        interpAt (sortQ (x :: t)) (75 / 100 * ((((x :: t).length : ℕ) : ℚ) - 1)) +
          3 / 2 * (summaryOf x t).iqr := rfl
    rw [e3, h75, hiqr]
    rfl
  refine ⟨hiqr, hlow, hup, ?_⟩
  have e4 : (summaryOf x t).outliers = (x :: t).filter
      (fun w => decide (w < (summaryOf x t).lowerFence) ||
        decide ((summaryOf x t).upperFence < w)) := rfl
  rw [e4, hlow, hup]
  rfl

end VGSales
